import Mathlib

/-!
Verification development for the RunBycycle pipeline (src/RunBycycle.py).

The Python source is shallowly embedded: h5py datasets of MATLAB object
references become rectangular arrays of abstract reference ids (`Arr2`),
reference resolution becomes oracle functions `Nat → Option _`, numpy
float64 signal samples become an inductive `Val` carrying either a finite
rational or a non-finite marker (NaN, plus or minus infinity), time stamps
become rationals, pandas DataFrames become lists of opaque rows, and file
system artifacts become lists of path components and lists of lines.
-/

namespace RunBycycle

/-- Model of one float64 sample: a finite rational value or a non-finite
marker (NaN, positive infinity, negative infinity). -/
inductive Val where
  | fin : ℚ → Val
  | nan : Val
  | pinf : Val
  | ninf : Val
deriving DecidableEq

/-- Model of numpy non-finiteness: `np.isnan(v) or np.isinf(v)`. -/
def Val.nonfinite : Val → Bool
  | .fin _ => false
  | .nan => true
  | .pinf => true
  | .ninf => true

/-- Model of a rectangular 2-D h5py dataset of MATLAB object references:
shape `(nr, nc)` with a total cell function giving the reference id stored
at each coordinate. -/
structure Arr2 where
  nr : Nat
  nc : Nat
  cell : Nat → Nat → Nat

/-- Model of the two-step item access `dataset[r][c]`: in bounds it yields
the stored reference id, out of bounds h5py raises an IndexError, modelled
as `none`. -/
def Arr2.cellRef (a : Arr2) (r c : Nat) : Option Nat :=
  if r < a.nr ∧ c < a.nc then some (a.cell r c) else none

/-- Model of the per-element body of the label loops (lines 437-443,
448-454, 458-464 of RunBycycle.py): resolve the reference; on success the
decoded stripped text is used, on failure the placeholder
`"Channel_" ++ i` is appended. The oracle `rl` stands for
`resolve_reference` composed with `tobytes().decode(..).strip()`. -/
def labelAt (rl : Nat → Option String) (r : Nat) (i : Nat) : String :=
  match rl r with
  | some s => s
  | none => "Channel_" ++ toString i

/-- Model of the shapes the label dataset can take: 1-D of length `n`, or a
2-D rectangular dataset. -/
inductive LabelArr where
  | one : Nat → (Nat → Nat) → LabelArr
  | two : Arr2 → LabelArr

/-- Declared channel count of a label dataset: its length for 1-D, and for
2-D the non-unit axis as read off by the branches at lines 447 and 457. -/
def LabelArr.count : LabelArr → Nat
  | .one n _ => n
  | .two a => if a.nr = 1 then a.nc else a.nr

/-- Reference stored at position `i` of a label dataset, following the same
orientation branches as the source. -/
def LabelArr.refAt : LabelArr → Nat → Nat
  | .one _ cell, i => cell i
  | .two a, i => if a.nr = 1 then a.cell 0 i else a.cell i 0

/-- Shapes the decoder accepts: any 1-D dataset, and 2-D datasets with a
unit first or second axis (lines 435, 446, 456); all other shapes hit the
`Unexpected labels_data shape` error paths. -/
def LabelArr.accepted : LabelArr → Bool
  | .one _ _ => true
  | .two a => a.nr == 1 || a.nc == 1

/-- Embedding of the label extraction loops of RunBycycle.py lines 433-471:
for each position of the accepted dataset, resolve the reference and append
either the decoded label or the positional placeholder; unexpected shapes
yield `none` (the region is skipped). -/
def decode_labels (rl : Nat → Option String) : LabelArr → Option (List String)
  | .one n cell => some ((List.range n).map (fun i => labelAt rl (cell i) i))
  | .two a =>
    if a.nr = 1 then some ((List.range a.nc).map (fun i => labelAt rl (a.cell 0 i) i))
    else if a.nc = 1 then some ((List.range a.nr).map (fun i => labelAt rl (a.cell i 0) i))
    else none

theorem decode_labels_map (rl : Nat → Option String) (arr : LabelArr)
    (hacc : arr.accepted = true) :
    decode_labels rl arr
      = some ((List.range arr.count).map (fun i => labelAt rl (arr.refAt i) i)) := by
  cases arr with
  | one n cell => rfl
  | two a =>
    simp only [LabelArr.accepted, Bool.or_eq_true, beq_iff_eq] at hacc
    by_cases h1 : a.nr = 1
    · simp [decode_labels, LabelArr.count, LabelArr.refAt, h1]
    · have h2 : a.nc = 1 := hacc.resolve_left h1
      simp [decode_labels, LabelArr.count, LabelArr.refAt, h1, h2]

/-- C9: for every accepted label array (1-D of length N, or 2-D of shape
(1, N) or (N, 1)), the label decoder produces exactly N labels in
positional order, substituting the placeholder `"Channel_" ++ i` at every
position `i` whose reference fails to resolve, and never dropping a
label. -/
theorem c9_label_decoder_positional (rl : Nat → Option String) (arr : LabelArr)
    (hacc : arr.accepted = true) :
    ∃ out, decode_labels rl arr = some out ∧ out.length = arr.count ∧
      (∀ i, i < arr.count → ∀ s, rl (arr.refAt i) = some s → out[i]? = some s) ∧
      (∀ i, i < arr.count → rl (arr.refAt i) = none →
        out[i]? = some ("Channel_" ++ toString i)) := by
  refine ⟨_, decode_labels_map rl arr hacc, by simp, ?_, ?_⟩
  · intro i hi s hs
    rw [List.getElem?_map, List.getElem?_range hi]
    simp [labelAt, hs]
  · intro i hi hs
    rw [List.getElem?_map, List.getElem?_range hi]
    simp [labelAt, hs]

/-- Witness for C9 at a concrete (N, 1)-shaped label dataset in which the
middle reference fails to resolve. -/
theorem c9_label_decoder_positional_witness :
    (LabelArr.two ⟨3, 1, fun r _ => r⟩).accepted = true ∧
    (∃ out, decode_labels (fun r => if r = 1 then none else some ("L" ++ toString r))
        (LabelArr.two ⟨3, 1, fun r _ => r⟩) = some out ∧
      out.length = (LabelArr.two ⟨3, 1, fun r _ => r⟩).count ∧
      (∀ i, i < (LabelArr.two ⟨3, 1, fun r _ => r⟩).count → ∀ s,
        (if (LabelArr.two ⟨3, 1, fun r _ => r⟩).refAt i = 1 then none
          else some ("L" ++ toString ((LabelArr.two ⟨3, 1, fun r _ => r⟩).refAt i))) = some s →
        out[i]? = some s) ∧
      (∀ i, i < (LabelArr.two ⟨3, 1, fun r _ => r⟩).count →
        (if (LabelArr.two ⟨3, 1, fun r _ => r⟩).refAt i = 1 then none
          else some ("L" ++ toString ((LabelArr.two ⟨3, 1, fun r _ => r⟩).refAt i))) = none →
        out[i]? = some ("Channel_" ++ toString i))) :=
  ⟨rfl, c9_label_decoder_positional
    (fun r => if r = 1 then none else some ("L" ++ toString r))
    (LabelArr.two ⟨3, 1, fun r _ => r⟩) rfl⟩

/-- Embedding of the per-trial cell reference selection of RunBycycle.py
lines 502-508: both the signal cell reference and the time cell reference
are chosen by the branch on `lfp_data_refs.shape[0] == 1`; an IndexError in
either lookup is modelled as `none` (the trial is skipped by the handler at
line 553). -/
def chooseRefs (sig timeRefs : Arr2) (i : Nat) : Option (Nat × Nat) :=
  if sig.nr = 1 then
    match sig.cellRef 0 i, timeRefs.cellRef 0 i with
    | some a, some b => some (a, b)
    | _, _ => none
  else
    match sig.cellRef i 0, timeRefs.cellRef i 0 with
    | some a, some b => some (a, b)
    | _, _ => none

/-- C10: the trial loader selects both the signal-cell and the time-cell
reference using the orientation of the signal container alone.  The time
container contributes only the cell at the index dictated by the signal
orientation (row 0 when the signal container is 1-by-N, column 0
otherwise), so its own orientation is never consulted, and with mismatched
orientations every time lookup follows the signal convention. -/
theorem c10_time_indexed_by_signal_orientation (sig t1 t2 : Arr2) (i : Nat) :
    (sig.nr = 1 → t1.cellRef 0 i = t2.cellRef 0 i →
      chooseRefs sig t1 i = chooseRefs sig t2 i) ∧
    (sig.nr ≠ 1 → t1.cellRef i 0 = t2.cellRef i 0 →
      chooseRefs sig t1 i = chooseRefs sig t2 i) ∧
    (∀ p, chooseRefs sig t1 i = some p →
      (sig.nr = 1 ∧ sig.cellRef 0 i = some p.1 ∧ t1.cellRef 0 i = some p.2) ∨
      (sig.nr ≠ 1 ∧ sig.cellRef i 0 = some p.1 ∧ t1.cellRef i 0 = some p.2)) := by
  refine ⟨?_, ?_, ?_⟩
  · intro h1 ht
    simp only [chooseRefs, h1, if_pos, ht]
  · intro h1 ht
    simp only [chooseRefs, if_neg h1, ht]
  · intro p hp
    by_cases h1 : sig.nr = 1
    · left
      refine ⟨h1, ?_⟩
      simp only [chooseRefs, h1, if_pos] at hp
      cases hs : sig.cellRef 0 i with
      | none => rw [hs] at hp; exact absurd hp (by cases t1.cellRef 0 i <;> simp)
      | some a =>
        cases ht : t1.cellRef 0 i with
        | none => rw [hs, ht] at hp; exact absurd hp (by simp)
        | some b => rw [hs, ht] at hp; cases hp; exact ⟨rfl, rfl⟩
    · right
      refine ⟨h1, ?_⟩
      simp only [chooseRefs, if_neg h1] at hp
      cases hs : sig.cellRef i 0 with
      | none => rw [hs] at hp; exact absurd hp (by cases t1.cellRef i 0 <;> simp)
      | some a =>
        cases ht : t1.cellRef i 0 with
        | none => rw [hs, ht] at hp; exact absurd hp (by simp)
        | some b => rw [hs, ht] at hp; cases hp; exact ⟨rfl, rfl⟩

/-- Witness for C10: a 1-by-2 signal container with two time containers of
different shapes (1-by-2 versus 3-by-2) that agree on row 0 produce the
same selection, and the selected pair is read from row 0 of both. -/
theorem c10_time_indexed_by_signal_orientation_witness :
    chooseRefs ⟨1, 2, fun r c => 10 + r + c⟩ ⟨1, 2, fun _ c => 20 + c⟩ 0
      = chooseRefs ⟨1, 2, fun r c => 10 + r + c⟩
          ⟨3, 2, fun r c => if r = 0 then 20 + c else 99⟩ 0 :=
  (c10_time_indexed_by_signal_orientation
    ⟨1, 2, fun r c => 10 + r + c⟩ ⟨1, 2, fun _ c => 20 + c⟩
    ⟨3, 2, fun r c => if r = 0 then 20 + c else 99⟩ 0).1 rfl rfl

/-- Model of a samples-by-channels signal matrix: the row list, together
with the column count (`shape[1]`), which numpy keeps even when the row
list becomes empty. -/
structure Mat where
  data : List (List Val)
  ncols : Nat
deriving DecidableEq

/-- Model of `np.array(payload).T` (line 513): the raw payload is stored
channel-major, so the transposed matrix has the payload rows as columns and
`shape[1]` equal to the number of payload rows. -/
def Mat.ofPayload (p : List (List Val)) : Mat :=
  ⟨p.transpose, p.length⟩

/-- Model of row slicing `m[:n, :]` (line 526). -/
def Mat.takeRows (m : Mat) (n : Nat) : Mat :=
  ⟨m.data.take n, m.ncols⟩

/-- Model of boolean-mask row selection `m[mask]` for a mask of the same
length as the indexed list. -/
def applyMask {α : Type} : List Bool → List α → List α
  | true :: bs, a :: rest => a :: applyMask bs rest
  | false :: bs, _ :: rest => applyMask bs rest
  | _, _ => []

/-- Model of `m[tidx, :]` (line 539). -/
def Mat.maskRows (m : Mat) (mask : List Bool) : Mat :=
  ⟨applyMask mask m.data, m.ncols⟩

/-- Model of the check `np.isnan(m).any() or np.isinf(m).any()`
(line 544). -/
def Mat.hasNonfinite (m : Mat) : Bool :=
  m.data.any (fun row => row.any Val.nonfinite)

/-- Fixed time window `xlim = [-0.3, 2.8]` of line 274, lower bound. -/
def xlo : ℚ := mkRat (-3) 10

/-- Fixed time window `xlim = [-0.3, 2.8]` of line 274, upper bound. -/
def xhi : ℚ := mkRat 28 10

/-- Model of the boolean index
`np.logical_and(time_vector >= xlim[0], time_vector < xlim[1])`
(line 535). -/
def tidxMask (tv : List ℚ) : List Bool :=
  tv.map (fun t => decide (xlo ≤ t) && decide (t < xhi))

/-- Embedding of the length reconciliation of lines 522-528: when the row
count of the signal matrix and the time-vector length disagree, both are
truncated to the minimum of the two lengths. -/
def reconcile (m : Mat) (tv : List ℚ) : Mat × List ℚ :=
  if m.data.length ≠ tv.length then
    (m.takeRows (min m.data.length tv.length), tv.take (min m.data.length tv.length))
  else (m, tv)

/-- Embedding of the windowing of lines 535-539: compute the boolean time
index from the (reconciled) time vector and apply it to the time vector and
to the signal rows. -/
def windowTrial (m : Mat) (tv : List ℚ) : Mat × List ℚ :=
  (m.maskRows (tidxMask tv), applyMask (tidxMask tv) tv)

/-- Reconciliation followed by windowing, the processing a trial undergoes
between resolution and the non-finite check (lines 522-541; the float64
casts at lines 531-532 are identities in this model). -/
def processResolved (m : Mat) (tv : List ℚ) : Mat × List ℚ :=
  windowTrial (reconcile m tv).1 (reconcile m tv).2

/-- Model of `num_trials` (line 489): `shape[1]` when the signal reference
container is 1-by-N, else `shape[0]`. -/
def numTrials (sig : Arr2) : Nat :=
  if sig.nr = 1 then sig.nc else sig.nr

/-- State of the trial loop of lines 500-555: the accepted
`(signal, time)` pairs accumulated so far, together with the value last
assigned to the Python variable `lfp_trial_data` (outer `none` means never
assigned; `some none` means the last assignment was the `None` returned by
a failed resolution at line 509). -/
abbrev LoadState := List (Mat × List ℚ) × Option (Option Mat)

/-- Embedding of one iteration of the trial loop (lines 500-555) for trial
index `i`.  An IndexError while picking the cell references skips the trial
without touching `lfp_trial_data`; a failed signal resolution assigns
`None` to it; a failed time resolution leaves the transposed matrix in it;
a trial whose windowed matrix contains a non-finite value is rejected after
the windowed matrix was assigned; otherwise the trial is accepted. -/
def trialStep (resolveS : Nat → Option (List (List Val)))
    (resolveT : Nat → Option (List ℚ)) (sig timeRefs : Arr2)
    (st : LoadState) (i : Nat) : LoadState :=
  match chooseRefs sig timeRefs i with
  | none => st
  | some refs =>
    match resolveS refs.1 with
    | none => (st.1, some none)
    | some payload =>
      match resolveT refs.2 with
      | none => (st.1, some (some (Mat.ofPayload payload)))
      | some tv =>
        if (processResolved (Mat.ofPayload payload) tv).1.hasNonfinite then
          (st.1, some (some (processResolved (Mat.ofPayload payload) tv).1))
        else (st.1 ++ [processResolved (Mat.ofPayload payload) tv],
          some (some (processResolved (Mat.ofPayload payload) tv).1))

/-- Embedding of the whole trial loop of lines 500-555: fold the per-trial
step over the trial indices, starting from no accepted trials and an
unassigned `lfp_trial_data`. -/
def loadTrials (resolveS : Nat → Option (List (List Val)))
    (resolveT : Nat → Option (List ℚ)) (sig timeRefs : Arr2) : LoadState :=
  (List.range (numTrials sig)).foldl (trialStep resolveS resolveT sig timeRefs) ([], none)

theorem applyMask_length_eq {α β : Type} (mask : List Bool) (l1 : List α) (l2 : List β)
    (h1 : mask.length = l1.length) (h2 : mask.length = l2.length) :
    (applyMask mask l1).length = (applyMask mask l2).length := by
  induction mask generalizing l1 l2 with
  | nil => cases l1 <;> cases l2 <;> simp_all [applyMask]
  | cons b bs ih =>
    cases l1 with
    | nil => simp at h1
    | cons a as1 =>
      cases l2 with
      | nil => simp at h2
      | cons c cs =>
        simp only [List.length_cons, Nat.succ.injEq] at h1 h2
        cases b with
        | true => simpa [applyMask] using ih as1 cs h1 h2
        | false => simpa [applyMask] using ih as1 cs h1 h2

theorem reconcile_length_eq (m : Mat) (tv : List ℚ) :
    (reconcile m tv).1.data.length = (reconcile m tv).2.length := by
  by_cases h : m.data.length = tv.length
  · simp [reconcile, h]
  · simp only [reconcile, if_pos h, Mat.takeRows, List.length_take]
    omega

theorem processResolved_length_eq (m : Mat) (tv : List ℚ) :
    (processResolved m tv).1.data.length = (processResolved m tv).2.length := by
  unfold processResolved windowTrial Mat.maskRows
  exact applyMask_length_eq _ _ _
    (by simp [tidxMask, reconcile_length_eq m tv]) (by simp [tidxMask])

theorem trialStep_accepted_mono (resolveS : Nat → Option (List (List Val)))
    (resolveT : Nat → Option (List ℚ)) (sig timeRefs : Arr2)
    (st : LoadState) (i : Nat) (p : Mat × List ℚ) (hp : p ∈ st.1) :
    p ∈ (trialStep resolveS resolveT sig timeRefs st i).1 := by
  rcases h1 : chooseRefs sig timeRefs i with _ | refs
  · simp [trialStep, h1, hp]
  · rcases h2 : resolveS refs.1 with _ | payload
    · simp [trialStep, h1, h2, hp]
    · rcases h3 : resolveT refs.2 with _ | tv
      · simp [trialStep, h1, h2, h3, hp]
      · by_cases hnf : (processResolved (Mat.ofPayload payload) tv).1.hasNonfinite = true
        · simp [trialStep, h1, h2, h3, hnf, hp]
        · simp [trialStep, h1, h2, h3, hnf, hp]

theorem trialStep_accepted_shape (resolveS : Nat → Option (List (List Val)))
    (resolveT : Nat → Option (List ℚ)) (sig timeRefs : Arr2)
    (st : LoadState) (i : Nat) :
    (trialStep resolveS resolveT sig timeRefs st i).1 = st.1 ∨
    ∃ payload tv, (trialStep resolveS resolveT sig timeRefs st i).1
        = st.1 ++ [processResolved (Mat.ofPayload payload) tv] ∧
      (processResolved (Mat.ofPayload payload) tv).1.hasNonfinite = false := by
  rcases h1 : chooseRefs sig timeRefs i with _ | refs
  · exact Or.inl (by simp [trialStep, h1])
  · rcases h2 : resolveS refs.1 with _ | payload
    · exact Or.inl (by simp [trialStep, h1, h2])
    · rcases h3 : resolveT refs.2 with _ | tv
      · exact Or.inl (by simp [trialStep, h1, h2, h3])
      · by_cases hnf : (processResolved (Mat.ofPayload payload) tv).1.hasNonfinite = true
        · exact Or.inl (by simp [trialStep, h1, h2, h3, hnf])
        · refine Or.inr ⟨payload, tv, ?_, by simpa using hnf⟩
          simp [trialStep, h1, h2, h3, hnf]

theorem loadTrials_accepted_inv (resolveS : Nat → Option (List (List Val)))
    (resolveT : Nat → Option (List ℚ)) (sig timeRefs : Arr2)
    (l : List Nat) (st : LoadState)
    (P : Mat × List ℚ → Prop)
    (hst : ∀ p ∈ st.1, P p)
    (hstep : ∀ payload tv, (processResolved (Mat.ofPayload payload) tv).1.hasNonfinite = false →
      P (processResolved (Mat.ofPayload payload) tv)) :
    ∀ p ∈ (l.foldl (trialStep resolveS resolveT sig timeRefs) st).1, P p := by
  induction l generalizing st with
  | nil => exact hst
  | cons i rest ih =>
    refine ih _ ?_
    rcases trialStep_accepted_shape resolveS resolveT sig timeRefs st i with h | ⟨payload, tv, h, hnf⟩
    · rw [h]; exact hst
    · rw [h]
      intro p hp
      rcases List.mem_append.mp hp with hp | hp
      · exact hst p hp
      · rcases List.mem_singleton.mp hp with rfl
        exact hstep payload tv hnf

/-- C7: when the resolved signal row count and time-vector length differ,
both are truncated to the minimum of the two lengths and only a prefix of
each survives the reconciliation; and every trial accepted by the loader
has signal row count equal to its time-vector length. -/
theorem c7_length_reconciliation (resolveS : Nat → Option (List (List Val)))
    (resolveT : Nat → Option (List ℚ)) (sig timeRefs : Arr2) :
    (∀ (m : Mat) (tv : List ℚ), m.data.length ≠ tv.length →
      (reconcile m tv).1.data.length = min m.data.length tv.length ∧
      (reconcile m tv).2.length = min m.data.length tv.length ∧
      (reconcile m tv).1.data <+: m.data ∧ (reconcile m tv).2 <+: tv) ∧
    (∀ p ∈ (loadTrials resolveS resolveT sig timeRefs).1,
      p.1.data.length = p.2.length) := by
  constructor
  · intro m tv hne
    refine ⟨?_, ?_, ?_, ?_⟩
    · simp only [reconcile, if_pos hne, Mat.takeRows, List.length_take]
      omega
    · simp only [reconcile, if_pos hne, List.length_take]
      omega
    · simp only [reconcile, if_pos hne, Mat.takeRows]
      exact ⟨m.data.drop _, List.take_append_drop _ m.data⟩
    · simp only [reconcile, if_pos hne]
      exact ⟨tv.drop _, List.take_append_drop _ tv⟩
  · refine loadTrials_accepted_inv resolveS resolveT sig timeRefs _ _ _ (by simp) ?_
    intro payload tv _
    exact processResolved_length_eq _ _

/-- Witness for C7 at a mismatched pair (3 signal rows, 2 time stamps) and
at a concrete loader run accepting one trial. -/
theorem c7_length_reconciliation_witness :
    ((⟨[[.fin 1], [.fin 2], [.fin 3]], 1⟩ : Mat).data.length ≠ ([0, 1] : List ℚ).length ∧
      (reconcile ⟨[[.fin 1], [.fin 2], [.fin 3]], 1⟩ [0, 1]).1.data.length
        = min (⟨[[.fin 1], [.fin 2], [.fin 3]], 1⟩ : Mat).data.length ([0, 1] : List ℚ).length ∧
      (reconcile ⟨[[.fin 1], [.fin 2], [.fin 3]], 1⟩ [0, 1]).2.length
        = min (⟨[[.fin 1], [.fin 2], [.fin 3]], 1⟩ : Mat).data.length ([0, 1] : List ℚ).length ∧
      (reconcile ⟨[[.fin 1], [.fin 2], [.fin 3]], 1⟩ [0, 1]).1.data
        <+: (⟨[[.fin 1], [.fin 2], [.fin 3]], 1⟩ : Mat).data ∧
      (reconcile ⟨[[.fin 1], [.fin 2], [.fin 3]], 1⟩ [0, 1]).2 <+: ([0, 1] : List ℚ)) ∧
    (∀ p ∈ (loadTrials (fun _ => some [[.fin 1, .fin 2]]) (fun _ => some [0, 1])
        ⟨1, 1, fun _ _ => 0⟩ ⟨1, 1, fun _ _ => 0⟩).1,
      p.1.data.length = p.2.length) :=
  ⟨⟨by decide,
    (c7_length_reconciliation (fun _ => some [[.fin 1, .fin 2]]) (fun _ => some [0, 1])
      ⟨1, 1, fun _ _ => 0⟩ ⟨1, 1, fun _ _ => 0⟩).1
      ⟨[[.fin 1], [.fin 2], [.fin 3]], 1⟩ [0, 1] (by decide)⟩,
   (c7_length_reconciliation (fun _ => some [[.fin 1, .fin 2]]) (fun _ => some [0, 1])
      ⟨1, 1, fun _ _ => 0⟩ ⟨1, 1, fun _ _ => 0⟩).2⟩

theorem loadTrials_mem_of_success (resolveS : Nat → Option (List (List Val)))
    (resolveT : Nat → Option (List ℚ)) (sig timeRefs : Arr2)
    (n : Nat) (st : LoadState) (i : Nat) (hi : i < n)
    (refs : Nat × Nat) (h1 : chooseRefs sig timeRefs i = some refs)
    (payload : List (List Val)) (h2 : resolveS refs.1 = some payload)
    (tv : List ℚ) (h3 : resolveT refs.2 = some tv)
    (hnf : (processResolved (Mat.ofPayload payload) tv).1.hasNonfinite = false) :
    processResolved (Mat.ofPayload payload) tv
      ∈ ((List.range n).foldl (trialStep resolveS resolveT sig timeRefs) st).1 := by
  induction n generalizing st with
  | zero => omega
  | succ n ih =>
    rw [List.range_succ, List.foldl_append]
    rcases Nat.lt_succ_iff_lt_or_eq.mp hi with hlt | rfl
    · exact trialStep_accepted_mono resolveS resolveT sig timeRefs _ _ _ (ih _ hlt)
    · simp only [List.foldl_cons, List.foldl_nil]
      have : (processResolved (Mat.ofPayload payload) tv).1.hasNonfinite = true ↔ False := by
        simp [hnf]
      simp [trialStep, h1, h2, h3, this]

/-- C8: a trial whose time-windowed signal matrix contains any NaN or
infinite value is rejected by the trial loader (every accepted trial has an
all-finite windowed matrix, so such a trial is absent from everything
computed from the accepted set), while a trial whose references resolve and
whose windowed matrix is all-finite is accepted. -/
theorem c8_nonfinite_rejection (resolveS : Nat → Option (List (List Val)))
    (resolveT : Nat → Option (List ℚ)) (sig timeRefs : Arr2) :
    (∀ p ∈ (loadTrials resolveS resolveT sig timeRefs).1,
      p.1.hasNonfinite = false) ∧
    (∀ i, i < numTrials sig → ∀ refs, chooseRefs sig timeRefs i = some refs →
      ∀ payload, resolveS refs.1 = some payload →
      ∀ tv, resolveT refs.2 = some tv →
      (processResolved (Mat.ofPayload payload) tv).1.hasNonfinite = false →
      processResolved (Mat.ofPayload payload) tv
        ∈ (loadTrials resolveS resolveT sig timeRefs).1) := by
  constructor
  · refine loadTrials_accepted_inv resolveS resolveT sig timeRefs _ _ _ (by simp) ?_
    intro payload tv hnf
    exact hnf
  · intro i hi refs h1 payload h2 tv h3 hnf
    exact loadTrials_mem_of_success resolveS resolveT sig timeRefs _ _ i hi refs h1
      payload h2 tv h3 hnf

/-- Concrete oracles for the C8 witness: trial 0 resolves to an all-finite
1-sample, 1-channel matrix with its time stamp inside the window. -/
def resolveSFin : Nat → Option (List (List Val)) := fun _ => some [[.fin 5]]

/-- Concrete time oracle for the C8 witness. -/
def resolveTFin : Nat → Option (List ℚ) := fun _ => some [0]

/-- Witness for C8 at a concrete single-trial region whose only trial is
finite and therefore accepted. -/
theorem c8_nonfinite_rejection_witness :
    (∀ p ∈ (loadTrials resolveSFin resolveTFin ⟨1, 1, fun _ _ => 0⟩
        ⟨1, 1, fun _ _ => 0⟩).1, p.1.hasNonfinite = false) ∧
    processResolved (Mat.ofPayload [[.fin 5]]) [0]
      ∈ (loadTrials resolveSFin resolveTFin ⟨1, 1, fun _ _ => 0⟩ ⟨1, 1, fun _ _ => 0⟩).1 :=
  ⟨(c8_nonfinite_rejection resolveSFin resolveTFin ⟨1, 1, fun _ _ => 0⟩ ⟨1, 1, fun _ _ => 0⟩).1,
   (c8_nonfinite_rejection resolveSFin resolveTFin ⟨1, 1, fun _ _ => 0⟩ ⟨1, 1, fun _ _ => 0⟩).2
     0 (by decide) (0, 0) (by decide) [[.fin 5]] rfl [0] rfl (by decide)⟩

/-- Model of `num_channels = lfp_trial_data.shape[1]` together with the
guard of lines 557-563: `none` when no trial survived (region skipped at
line 559) or when the leftover `lfp_trial_data` is not a matrix (the
AttributeError raised at line 563 aborts the region through the handler at
line 645). -/
def regionChannelCount (resolveS : Nat → Option (List (List Val)))
    (resolveT : Nat → Option (List ℚ)) (sig timeRefs : Arr2) : Option Nat :=
  if (loadTrials resolveS resolveT sig timeRefs).1.isEmpty then none
  else
    match (loadTrials resolveS resolveT sig timeRefs).2 with
    | some (some m) => some m.ncols
    | _ => none

/-- Column count reported by trial `i` when its signal reference resolves:
the raw payload is channel-major, so its row count is the channel count the
transposed matrix carries. -/
def resolvedCols (resolveS : Nat → Option (List (List Val)))
    (sig timeRefs : Arr2) (i : Nat) : Option Nat :=
  match chooseRefs sig timeRefs i with
  | some refs => (resolveS refs.1).map List.length
  | none => none

/-- Column count of the last trial whose signal reference resolved, taken
over the whole trial range in loop order. -/
def lastResolvedCols (resolveS : Nat → Option (List (List Val)))
    (sig timeRefs : Arr2) : Option Nat :=
  (List.range (numTrials sig)).foldl
    (fun acc i =>
      match resolvedCols resolveS sig timeRefs i with
      | some c => some c
      | none => acc) none

theorem processResolved_ncols (m : Mat) (tv : List ℚ) :
    (processResolved m tv).1.ncols = m.ncols := by
  unfold processResolved windowTrial Mat.maskRows
  by_cases h : m.data.length = tv.length
  · simp [reconcile, h]
  · simp [reconcile, h, Mat.takeRows]

theorem loadTrials_last_cols (resolveS : Nat → Option (List (List Val)))
    (resolveT : Nat → Option (List ℚ)) (sig timeRefs : Arr2)
    (l : List Nat) (st : LoadState) (acc : Option Nat)
    (hinv : ∀ m, st.2 = some (some m) → acc = some m.ncols) :
    ∀ m, (l.foldl (trialStep resolveS resolveT sig timeRefs) st).2 = some (some m) →
      (l.foldl (fun acc i =>
        match resolvedCols resolveS sig timeRefs i with
        | some c => some c
        | none => acc) acc) = some m.ncols := by
  induction l generalizing st acc with
  | nil => exact hinv
  | cons i rest ih =>
    refine ih _ _ ?_
    intro m hm
    rcases h1 : chooseRefs sig timeRefs i with _ | refs
    · simp only [trialStep, h1] at hm
      simp only [resolvedCols, h1]
      exact hinv m hm
    · rcases h2 : resolveS refs.1 with _ | payload
      · simp only [trialStep, h1, h2] at hm
        simp at hm
      · rcases h3 : resolveT refs.2 with _ | tv
        · simp only [trialStep, h1, h2, h3] at hm
          simp only [Option.some.injEq] at hm
          simp [resolvedCols, h1, h2, ← hm, Mat.ofPayload]
        · by_cases hnf : (processResolved (Mat.ofPayload payload) tv).1.hasNonfinite = true
          · simp only [trialStep, h1, h2, h3, if_pos hnf] at hm
            simp only [Option.some.injEq] at hm
            simp [resolvedCols, h1, h2, ← hm, processResolved_ncols, Mat.ofPayload]
          · simp only [trialStep, h1, h2, h3, if_neg hnf] at hm
            simp only [Option.some.injEq] at hm
            simp [resolvedCols, h1, h2, ← hm, processResolved_ncols, Mat.ofPayload]

/-- C5 as amended: whenever a region reaches pair enumeration, the channel
count used for the (trial, channel) cross-product equals the payload row
count (equivalently the transposed column count) of the last trial whose
signal reference resolved in the loop, which need not be the first
surviving trial. -/
theorem c5_amended_channel_count_from_last_resolved
    (resolveS : Nat → Option (List (List Val)))
    (resolveT : Nat → Option (List ℚ)) (sig timeRefs : Arr2) (nc : Nat)
    (h : regionChannelCount resolveS resolveT sig timeRefs = some nc) :
    lastResolvedCols resolveS sig timeRefs = some nc := by
  unfold regionChannelCount at h
  by_cases he : (loadTrials resolveS resolveT sig timeRefs).1.isEmpty
  · rw [if_pos he] at h
    exact absurd h (by simp)
  · rw [if_neg he] at h
    rcases hlast : (loadTrials resolveS resolveT sig timeRefs).2 with _ | om
    · rw [hlast] at h
      exact absurd h (by simp)
    · rcases om with _ | m
      · rw [hlast] at h
        exact absurd h (by simp)
      · rw [hlast] at h
        simp only [Option.some.injEq] at h
        subst h
        exact loadTrials_last_cols resolveS resolveT sig timeRefs _ _ _
          (by intro m hm; simp at hm) m hlast

/-- Signal-reference container for the C5 concrete region: one row, two
trials, reference ids 0 and 1. -/
def sigRefsEx : Arr2 := ⟨1, 2, fun _ c => c⟩

/-- Time-reference container for the C5 concrete region. -/
def timeRefsEx : Arr2 := ⟨1, 2, fun _ c => 10 + c⟩

/-- Signal resolution for the C5 concrete region: trial 0 is a 2-channel,
1-sample all-finite payload; trial 1 is a 3-channel, 1-sample payload whose
first channel holds NaN. -/
def resolveSEx : Nat → Option (List (List Val)) := fun r =>
  if r = 0 then some [[.fin 0], [.fin 0]]
  else if r = 1 then some [[.nan], [.fin 0], [.fin 0]]
  else none

/-- Time resolution for the C5 concrete region: both trials have the single
time stamp 0, inside the window. -/
def resolveTEx : Nat → Option (List ℚ) := fun t =>
  if t = 10 ∨ t = 11 then some [0] else none

/-- Counterexample to C5 as stated: in the concrete region, trial 0 (the
only surviving trial) has 2 columns, yet the channel count used is 3,
taken from the NaN-rejected trial 1, the last one whose signal reference
resolved. -/
theorem c5_counterexample_channel_count_not_first_survivor :
    regionChannelCount resolveSEx resolveTEx sigRefsEx timeRefsEx = some 3 ∧
    ((loadTrials resolveSEx resolveTEx sigRefsEx timeRefsEx).1.map
      (fun p => p.1.ncols)) = [2] := by
  constructor <;> decide

/-- Witness for the amended C5 at the concrete region: the channel count 3
is the payload row count of the last trial whose signal reference
resolved. -/
theorem c5_amended_channel_count_from_last_resolved_witness :
    lastResolvedCols resolveSEx sigRefsEx timeRefsEx = some 3 :=
  c5_amended_channel_count_from_last_resolved resolveSEx resolveTEx
    sigRefsEx timeRefsEx 3 (by decide)

/-- Embedding of the tuple enumeration of lines 569-571: the full
(trial, channel) cross-product, trials outer, channels inner. -/
def mkTuples (numT numC : Nat) : List (Nat × Nat) :=
  (List.range numT).flatMap (fun i => (List.range numC).map (fun j => (i, j)))

/-- Embedding of `get_df` (lines 145-191): feature extraction is the
external oracle `feat` (the `get_features` call, `none` on failure, a list
of opaque feature rows on success); a `None` result is logged and NOT
appended, so the returned list holds only the successful tables, in tuple
order. -/
def get_df {α : Type} (feat : Nat → Nat → Option (List α))
    (tuples : List (Nat × Nat)) : List (List α) :=
  tuples.filterMap (fun p => feat p.1 p.2)

/-- Embedding of the label adjustment of lines 566-568:
`labels = labels[:num_channels]` whenever the lengths differ. -/
def adjustLabels (labels : List String) (numChannels : Nat) : List String :=
  if labels.length ≠ numChannels then labels.take numChannels else labels

/-- Embedding of the region CSV loop of lines 606-628 from starting
dataframe index `k`: for each tuple, fetch `dataframes[i_df]` (an
IndexError skips the row group), skip empty tables, fetch
`labels[channel_idx]` (an IndexError skips the row group), and otherwise
emit the group prefixed with trial index, channel index and channel
label. -/
def writeRows {α : Type} (dfs : List (List α)) (labels : List String) :
    Nat → List (Nat × Nat) → List (Nat × Nat × String × List α)
  | _, [] => []
  | i, tc :: rest =>
    match dfs[i]? with
    | none => writeRows dfs labels (i + 1) rest
    | some df =>
      if df.isEmpty then writeRows dfs labels (i + 1) rest
      else
        match labels[tc.2]? with
        | none => writeRows dfs labels (i + 1) rest
        | some lab => (tc.1, tc.2, lab, df) :: writeRows dfs labels (i + 1) rest

/-- Region CSV write: the loop of lines 606-628 starting at dataframe
index 0. -/
def writeRegionCsv {α : Type} (dfs : List (List α)) (tuples : List (Nat × Nat))
    (labels : List String) : List (Nat × Nat × String × List α) :=
  writeRows dfs labels 0 tuples

/-- Composition of `get_df` and the region CSV loop, as `main` runs them
(lines 577-628): the written row groups of a region. -/
def regionOutput {α : Type} (feat : Nat → Nat → Option (List α))
    (tuples : List (Nat × Nat)) (labels : List String) :
    List (Nat × Nat × String × List α) :=
  writeRegionCsv (get_df feat tuples) tuples labels

/-- Feature oracle of the C1 failing input: pair (0, 0) fails, pair (0, 1)
produces the non-empty table `[7]`. -/
def featC1 : Nat → Nat → Option (List Nat) := fun t c =>
  if t = 0 ∧ c = 1 then some [7] else none

/-- C1 failing-input evaluation: with 1 trial and 2 channels, pair (0, 0)
fails and pair (0, 1) succeeds with the non-empty table `[7]`; because
`get_df` drops the failed pair instead of yielding `None` for it, the
written region output attributes the table produced by pair (0, 1) to the
prefix (trial 0, channel 0, label "A"), contradicting the claim that every
written table is prefixed with the pair that produced it. -/
theorem c1_failing_input_misattributed_prefix :
    featC1 0 0 = none ∧ featC1 0 1 = some [7] ∧
    mkTuples 1 2 = [(0, 0), (0, 1)] ∧
    regionOutput featC1 (mkTuples 1 2) ["A", "B"] = [(0, 0, "A", [7])] := by
  refine ⟨rfl, rfl, by decide, by decide⟩

/-- Feature oracle of the C6 counterexample: every pair succeeds with the
non-empty table `[10 * t + c]`. -/
def featC6 : Nat → Nat → Option (List Nat) := fun t c => some [10 * t + c]

/-- Counterexample to C6 as stated: with a decoded label set of length 1
and channel count 2, the adjustment `labels[:num_channels]` leaves the
label set unchanged (it does not lengthen it to match), and the pair
(0, 1), whose channel index is beyond the label set, has NO row group
written even though its feature table is non-empty — its rows are dropped
by the IndexError on the label lookup, not written via positional
indexing. -/
theorem c6_counterexample_excess_channel_rows_dropped :
    adjustLabels ["A"] 2 = ["A"] ∧ (["A"].length ≠ 2) ∧
    featC6 0 1 = some [1] ∧
    regionOutput featC6 [(0, 0), (0, 1)] ["A"] = [(0, 0, "A", [0])] ∧
    (∀ g ∈ regionOutput featC6 [(0, 0), (0, 1)] ["A"], g.2.1 ≠ 1) := by
  refine ⟨by decide, by decide, rfl, by decide, by decide⟩

theorem writeRows_sound {α : Type} (dfs : List (List α)) (labels : List String)
    (tuples : List (Nat × Nat)) (k : Nat) (g : Nat × Nat × String × List α)
    (hg : g ∈ writeRows dfs labels k tuples) :
    g.2.1 < labels.length ∧ labels[g.2.1]? = some g.2.2.1 := by
  induction tuples generalizing k with
  | nil => simp [writeRows] at hg
  | cons tc rest ih =>
    rcases h1 : dfs[k]? with _ | df
    · simp only [writeRows, h1] at hg
      exact ih _ hg
    · simp only [writeRows, h1] at hg
      by_cases hemp : df.isEmpty = true
      · simp only [hemp, if_true] at hg
        exact ih _ hg
      · simp only [if_neg hemp] at hg
        rcases h2 : labels[tc.2]? with _ | lab
        · simp only [h2] at hg
          exact ih _ hg
        · simp only [h2, List.mem_cons] at hg
          rcases hg with rfl | hg
          · refine ⟨?_, h2⟩
            exact (List.getElem?_eq_some_iff.mp h2).1
          · exact ih _ hg

theorem writeRows_complete {α : Type} (dfs : List (List α)) (labels : List String)
    (tuples : List (Nat × Nat)) (k i t c : Nat) (df : List α) (lab : String)
    (ht : tuples[i]? = some (t, c)) (hd : dfs[k + i]? = some df)
    (hne : df.isEmpty = false) (hl : labels[c]? = some lab) :
    (t, c, lab, df) ∈ writeRows dfs labels k tuples := by
  induction tuples generalizing k i with
  | nil => simp at ht
  | cons tc rest ih =>
    cases i with
    | zero =>
      simp only [List.getElem?_cons_zero, Option.some.injEq] at ht
      subst ht
      rw [Nat.add_zero] at hd
      simp only [writeRows, hd, hne, Bool.false_eq_true, if_false, hl]
      exact List.mem_cons_self _ _
    | succ j =>
      simp only [List.getElem?_cons_succ] at ht
      have hd2 : dfs[(k + 1) + j]? = some df := by
        rw [show k + 1 + j = k + (j + 1) by omega]
        exact hd
      have htail := ih (k + 1) j ht hd2
      rcases h1 : dfs[k]? with _ | df0
      · simp only [writeRows, h1]
        exact htail
      · by_cases hemp : df0.isEmpty = true
        · simp only [writeRows, h1, hemp, if_true]
          exact htail
        · simp only [writeRows, h1, if_neg hemp]
          rcases h2 : labels[tc.2]? with _ | lab0
          · simp only [h2]
            exact htail
          · simp only [h2]
            exact List.mem_cons_of_mem _ htail

/-- C6 as amended: when the decoded label set is shorter than the channel
count, the adjustment `labels[:num_channels]` leaves it unchanged (it is
never padded and never lengthened to match); a written row group always
carries a channel index inside the label set with the positional label,
and a pair whose table is present and non-empty has its rows written
exactly when its channel index is below the label-set length — pairs at or
beyond it are skipped by the failed label lookup. -/
theorem c6_amended_shorter_labels {α : Type} (labels : List String)
    (numChannels : Nat) (h : labels.length < numChannels)
    (dfs : List (List α)) (tuples : List (Nat × Nat)) :
    adjustLabels labels numChannels = labels ∧
    (∀ g ∈ writeRegionCsv dfs tuples labels,
      g.2.1 < labels.length ∧ labels[g.2.1]? = some g.2.2.1) ∧
    (∀ (i t c : Nat) (df : List α), tuples[i]? = some (t, c) → dfs[i]? = some df →
      df.isEmpty = false → c < labels.length →
      ∃ lab, labels[c]? = some lab ∧
        (t, c, lab, df) ∈ writeRegionCsv dfs tuples labels) := by
  refine ⟨?_, ?_, ?_⟩
  · unfold adjustLabels
    rw [if_pos (by omega)]
    exact List.take_of_length_le (by omega)
  · intro g hg
    exact writeRows_sound dfs labels tuples 0 g hg
  · intro i t c df ht hd hne hc
    rcases hl : labels[c]? with _ | lab
    · rw [List.getElem?_eq_none_iff] at hl
      omega
    · exact ⟨lab, rfl, writeRows_complete dfs labels tuples 0 i t c df lab ht
        (by simpa using hd) hne hl⟩

/-- Witness for the amended C6 at a concrete region with one label and two
channels. -/
theorem c6_amended_shorter_labels_witness :
    (["A"].length < 2) ∧
    (adjustLabels ["A"] 2 = ["A"] ∧
      (∀ g ∈ writeRegionCsv [[5], [6]] [(0, 0), (0, 1)] ["A"],
        g.2.1 < (["A"] : List String).length ∧ ["A"][g.2.1]? = some g.2.2.1) ∧
      (∀ (i t c : Nat) (df : List Nat), ([(0, 0), (0, 1)] : List (Nat × Nat))[i]? = some (t, c) →
        ([[5], [6]] : List (List Nat))[i]? = some df →
        df.isEmpty = false → c < (["A"] : List String).length →
        ∃ lab, ["A"][c]? = some lab ∧
          (t, c, lab, df) ∈ writeRegionCsv [[5], [6]] [(0, 0), (0, 1)] ["A"])) :=
  ⟨by decide, c6_amended_shorter_labels ["A"] 2 (by decide) [[5], [6]] [(0, 0), (0, 1)]⟩

/-- Character sequence of the literal that the merge-discovery glob
`*_bycycle_features_*.csv` (line 658) requires inside a basename. -/
def litBF : List Char := ("_bycycle_features_").toList

/-- Character sequence of the required extension of the discovery glob. -/
def csvExt : List Char := (".csv").toList

/-- Boolean check that `pat` is an initial segment of `l`. -/
def isPre : List Char → List Char → Bool
  | [], _ => true
  | _ :: _, [] => false
  | a :: as1, b :: bs => a == b && isPre as1 bs

/-- Boolean check that `pat` occurs contiguously inside `l`. -/
def hasInfix (pat : List Char) : List Char → Bool
  | [] => pat.isEmpty
  | c :: rest => isPre pat (c :: rest) || hasInfix pat rest

/-- Model of fnmatch against `*_bycycle_features_*.csv` on a list of
characters: the name ends in `.csv` and what precedes the extension
contains the literal `_bycycle_features_`. -/
def globList (cs : List Char) : Bool :=
  if 4 ≤ cs.length then
    decide (cs.drop (cs.length - 4) = csvExt) && hasInfix litBF (cs.take (cs.length - 4))
  else false

/-- Model of fnmatch against `*_bycycle_features_*.csv` on a basename. -/
def globMatchBase (s : String) : Bool := globList s.toList

/-- Model of the recursive glob
`os.path.join(session_dir, "**", "*_bycycle_features_*.csv")` (lines
658-660) on a path given as components relative to the session directory:
`**` matches zero or more directories, so only the basename is
constrained. -/
def matchesMergeGlob (p : List String) : Bool :=
  match p.getLast? with
  | some base => globMatchBase base
  | none => false

/-- Model of the merge-step file discovery: the files beneath the session
directory whose paths match the glob, in enumeration order. -/
def discoverCsvFiles (paths : List (List String)) : List (List String) :=
  paths.filter matchesMergeGlob

/-- Region CSV basename as built at lines 593-596. -/
def regionCsvName (sid region ts : String) : String :=
  sid ++ "_" ++ region ++ "_bycycle_features_" ++ ts ++ ".csv"

/-- Region CSV path relative to the session directory (lines 593-596): it
lives inside the region subdirectory. -/
def regionCsvRelPath (sid region ts : String) : List String :=
  [region, regionCsvName sid region ts]

/-- Merged CSV basename as built at lines 652-655. -/
def mergedCsvName (sid ts : String) : String :=
  sid ++ "_merged_bycycle_features_" ++ ts ++ ".csv"

/-- Merged CSV path relative to the session directory (lines 652-655): it
lives directly in the session directory. -/
def mergedCsvRelPath (sid ts : String) : List String :=
  [mergedCsvName sid ts]

/-- Embedding of the per-file part of the merge loop (lines 668-681): line
0 is written only when no header has been written yet and skipped
otherwise; all later lines are written. -/
def mergeFileLines (hw : Bool) (file : List String) : Bool × List String :=
  match file with
  | [] => (hw, [])
  | h :: rest => if hw then (true, rest) else (true, h :: rest)

/-- Merge-loop state transition: thread the header flag and append the
lines written for one file. -/
def mergeStep (st : Bool × List String) (f : List String) : Bool × List String :=
  ((mergeFileLines st.1 f).1, st.2 ++ (mergeFileLines st.1 f).2)

/-- Embedding of the merge loop of lines 666-684: fold the per-file step
over the discovered files, accumulating the written lines, starting with
no header written. -/
def mergeLines (files : List (List String)) : List String :=
  (files.foldl mergeStep (false, [])).2

/-- Specification-side description of the merge output: all lines of the
first non-empty file, followed by the tail (all lines but the first) of
every later file in order. -/
def mergeSpecOut : List (List String) → List String
  | [] => []
  | [] :: rest => mergeSpecOut rest
  | (h :: t) :: rest => h :: (t ++ (rest.map List.tail).flatten)

/-- Counterexample to C3 as stated: the discovery glob also matches a
previously retained session-level merged CSV sitting directly in the
session directory (path of length 1, while region CSVs live one level
down), so the merge step does not read only region-level files; moreover,
when the first discovered file is empty the header line comes from the
second file, not from the first discovered file. -/
theorem c3_counterexample_merge_reads_nonregion_files :
    discoverCsvFiles
      [regionCsvRelPath "P01" "HPC" "20240102_030405",
        mergedCsvRelPath "P01" "20240101_030405"]
      = [regionCsvRelPath "P01" "HPC" "20240102_030405",
        mergedCsvRelPath "P01" "20240101_030405"] ∧
    (mergedCsvRelPath "P01" "20240101_030405").length = 1 ∧
    (regionCsvRelPath "P01" "HPC" "20240102_030405").length = 2 ∧
    mergedCsvRelPath "P01" "20240101_030405"
      ≠ regionCsvRelPath "P01" "HPC" "20240102_030405" ∧
    mergeLines [[], ["h", "a"]] = ["h", "a"] := by
  refine ⟨by decide, rfl, rfl, by decide, by decide⟩

theorem isPre_append (pat rest : List Char) : isPre pat (pat ++ rest) = true := by
  induction pat with
  | nil => rfl
  | cons a as1 ih => simp [isPre, ih]

theorem hasInfix_append (pat a b : List Char) :
    hasInfix pat (a ++ (pat ++ b)) = true := by
  induction a with
  | nil =>
    rw [List.nil_append]
    cases hpb : pat ++ b with
    | nil =>
      have hp0 : pat = [] := by
        cases pat with
        | nil => rfl
        | cons x xs => simp at hpb
      rw [hp0]
      rfl
    | cons c rest =>
      show (isPre pat (c :: rest) || hasInfix pat rest) = true
      rw [← hpb, isPre_append, Bool.true_or]
  | cons c cs ih =>
    rw [List.cons_append]
    show (isPre pat (c :: (cs ++ (pat ++ b))) || hasInfix pat (cs ++ (pat ++ b))) = true
    rw [ih, Bool.or_true]

theorem globList_append (a b : List Char) :
    globList (a ++ litBF ++ b ++ csvExt) = true := by
  have hlen : (a ++ litBF ++ b ++ csvExt).length
      = (a ++ litBF ++ b).length + csvExt.length := by
    simp
    omega
  have h4 : csvExt.length = 4 := rfl
  rw [globList, if_pos (by omega)]
  have hd : (a ++ litBF ++ b ++ csvExt).length - 4 = (a ++ litBF ++ b).length := by
    omega
  rw [hd, List.drop_left, List.take_left]
  have : a ++ litBF ++ b = a ++ (litBF ++ b) := by
    simp [List.append_assoc]
  rw [this, hasInfix_append, decide_eq_true rfl]
  rfl

theorem mergeLines_fold_true (files : List (List String)) (out : List String) :
    files.foldl mergeStep (true, out)
      = (true, out ++ (files.map List.tail).flatten) := by
  induction files generalizing out with
  | nil => simp
  | cons f rest ih =>
    have hstep : mergeStep (true, out) f = (true, out ++ f.tail) := by
      cases f <;> simp [mergeStep, mergeFileLines]
    rw [List.foldl_cons, hstep, ih]
    simp

theorem mergeLines_eq_spec (files : List (List String)) :
    mergeLines files = mergeSpecOut files := by
  suffices h : ∀ out, (files.foldl mergeStep (false, out)).2 = out ++ mergeSpecOut files by
    have := h []
    simpa [mergeLines] using this
  induction files with
  | nil =>
    intro out
    simp [mergeSpecOut]
  | cons f rest ih =>
    intro out
    cases f with
    | nil =>
      have hstep : mergeStep (false, out) [] = (false, out) := by
        simp [mergeStep, mergeFileLines]
      rw [List.foldl_cons, hstep]
      exact ih out
    | cons h t =>
      have hstep : mergeStep (false, out) (h :: t) = (true, out ++ (h :: t)) := by
        simp [mergeStep, mergeFileLines]
      rw [List.foldl_cons, hstep, mergeLines_fold_true]
      simp [mergeSpecOut]

/-- C3 as amended: the merge step reads every file beneath the session
directory whose basename matches `*_bycycle_features_*.csv` — which
includes both region CSV names and previously retained session-level
merged CSV names, whatever the session id, region and timestamp — and its
output consists of all lines of the first non-empty discovered file
followed by every line after the first of each later discovered file, in
discovery order. -/
theorem c3_amended_merge_discovery_and_lines :
    (∀ sid ts : String, matchesMergeGlob (mergedCsvRelPath sid ts) = true) ∧
    (∀ sid region ts : String,
      matchesMergeGlob (regionCsvRelPath sid region ts) = true) ∧
    (∀ files : List (List String), mergeLines files = mergeSpecOut files) := by
  have hm : ∀ sid ts : String, globMatchBase (mergedCsvName sid ts) = true := by
    intro sid ts
    have hsplit : (mergedCsvName sid ts).toList
        = (sid.toList ++ ("_merged").toList) ++ litBF ++ ts.toList ++ csvExt := by
      simp [mergedCsvName, String.toList, String.data_append, litBF, csvExt,
        List.append_assoc]
    rw [globMatchBase, hsplit]
    exact globList_append _ _
  have hr : ∀ sid region ts : String,
      globMatchBase (regionCsvName sid region ts) = true := by
    intro sid region ts
    have hsplit : (regionCsvName sid region ts).toList
        = (sid.toList ++ ("_").toList ++ region.toList) ++ litBF ++ ts.toList ++ csvExt := by
      simp [regionCsvName, String.toList, String.data_append, litBF, csvExt,
        List.append_assoc]
    rw [globMatchBase, hsplit]
    exact globList_append _ _
  refine ⟨?_, ?_, mergeLines_eq_spec⟩
  · intro sid ts
    simpa [matchesMergeGlob, mergedCsvRelPath] using hm sid ts
  · intro sid region ts
    simpa [matchesMergeGlob, regionCsvRelPath] using hr sid region ts

/-- Gregorian leap-year rule, as implemented by Python `datetime`. -/
def isLeap (y : Nat) : Bool :=
  (y % 4 == 0 && y % 100 != 0) || y % 400 == 0

/-- Days in a month, as validated by the Python `datetime` constructor. -/
def daysInMonth (y mo : Nat) : Nat :=
  if mo = 2 then (if isLeap y then 29 else 28)
  else if mo = 4 ∨ mo = 6 ∨ mo = 9 ∨ mo = 11 then 30
  else 31

/-- Numeric value of a digit string. -/
def digitsToNat (l : List Char) : Nat :=
  l.foldl (fun a c => a * 10 + (c.toNat - 48)) 0

/-- Character sequence of the literal part of the retention regex
`_merged_bycycle_features_(\d{8}_\d{6})\.csv$` (line 701). -/
def mergedLit : List Char := ("_merged_bycycle_features_").toList

/-- Model of `datetime.strptime(g, "%Y%m%d_%H%M%S")` on the 8-digit date
part and 6-digit time part: validate the calendar fields the way
`datetime` does (year 1-9999, month 1-12, day within the month, hour to
23, minute and second to 59) and encode the timestamp as a single natural
number whose order agrees with datetime order. -/
def tsKey (d8 d6 : List Char) : Option Nat :=
  let y := digitsToNat (d8.take 4)
  let mo := digitsToNat ((d8.drop 4).take 2)
  let d := digitsToNat (d8.drop 6)
  let h := digitsToNat (d6.take 2)
  let mi := digitsToNat ((d6.drop 2).take 2)
  let s := digitsToNat (d6.drop 4)
  if 1 ≤ y ∧ y ≤ 9999 ∧ 1 ≤ mo ∧ mo ≤ 12 ∧ 1 ≤ d ∧ d ≤ daysInMonth y mo
      ∧ h ≤ 23 ∧ mi ≤ 59 ∧ s ≤ 59 then
    some (((((y * 100 + mo) * 100 + d) * 100 + h) * 100 + mi) * 100 + s)
  else none

/-- Embedding of `extract_timestamp` (lines 700-707): the filename must end
in the literal, 8 digits, an underscore, 6 digits and `.csv`; the captured
group must parse as a valid timestamp, else `None`. -/
def extract_timestamp (s : String) : Option Nat :=
  let cs := s.toList
  if cs.length < 44 then none
  else
    let suf := cs.drop (cs.length - 44)
    let ds := suf.drop 25
    let d8 := ds.take 8
    let d6 := (ds.drop 9).take 6
    if suf.take 25 = mergedLit ∧ (ds.drop 8).take 1 = ['_'] ∧ ds.drop 15 = csvExt
        ∧ d8.all Char.isDigit = true ∧ d6.all Char.isDigit = true then
      tsKey d8 d6
    else none

/-- Embedding of lines 709-711: pair every merge file with its extracted
timestamp, then drop the pairs whose extraction failed. -/
def tsPairs (files : List String) : List (String × Nat) :=
  (files.map (fun f => (f, extract_timestamp f))).filterMap
    (fun p => p.2.map (fun t => (p.1, t)))

/-- Embedding of the stable descending sort by timestamp of line 713. -/
def sortDesc (l : List (String × Nat)) : List (String × Nat) :=
  List.insertionSort (fun a b => b.2 ≤ a.2) l

/-- Embedding of lines 715-718: when more than one file has a valid
timestamp, every file except the head of the descending sort is deleted;
otherwise nothing is. -/
def filesToDelete (files : List String) : List String :=
  if (tsPairs files).length > 1 then ((sortDesc (tsPairs files)).drop 1).map Prod.fst
  else []

/-- Files remaining on disk after the retention pass of lines 694-726. -/
def retentionSurvivors (files : List String) : List String :=
  files.filter (fun f => decide (f ∉ filesToDelete files))

instance : IsTotal (String × Nat) (fun a b => b.2 ≤ a.2) :=
  ⟨fun a b => Nat.le_total b.2 a.2⟩

instance : IsTrans (String × Nat) (fun a b => b.2 ≤ a.2) :=
  ⟨fun _ _ _ hab hbc => Nat.le_trans hbc hab⟩

theorem tsPairs_eq_filterMap (files : List String) :
    tsPairs files
      = files.filterMap (fun f => (extract_timestamp f).map (fun t => (f, t))) := by
  rw [tsPairs, List.filterMap_map]
  rfl

theorem mem_tsPairs (files : List String) (f : String) (t : Nat) :
    (f, t) ∈ tsPairs files ↔ f ∈ files ∧ extract_timestamp f = some t := by
  rw [tsPairs_eq_filterMap, List.mem_filterMap]
  constructor
  · rintro ⟨a, ha, hmap⟩
    rcases Option.map_eq_some'.mp hmap with ⟨t0, ht0, heq⟩
    rcases Prod.mk.injEq .. ▸ heq with ⟨rfl, rfl⟩
    exact ⟨ha, ht0⟩
  · rintro ⟨hf, ht⟩
    exact ⟨f, hf, by rw [ht]; rfl⟩

theorem mem_tsPairs_pair (files : List String) (p : String × Nat)
    (hp : p ∈ tsPairs files) :
    p.1 ∈ files ∧ extract_timestamp p.1 = some p.2 :=
  (mem_tsPairs files p.1 p.2).mp hp

theorem tsPairs_fst_sublist (files : List String) :
    ((tsPairs files).map Prod.fst).Sublist files := by
  rw [tsPairs_eq_filterMap]
  induction files with
  | nil => simp
  | cons f rest ih =>
    rw [List.filterMap_cons]
    cases h : extract_timestamp f with
    | none =>
      simp only [Option.map_none']
      exact ih.cons f
    | some t =>
      simp only [Option.map_some', List.map_cons]
      exact ih.cons₂ f

theorem tsPairs_length_eq_countP (files : List String) :
    (tsPairs files).length = files.countP (fun f => (extract_timestamp f).isSome) := by
  rw [tsPairs_eq_filterMap]
  induction files with
  | nil => rfl
  | cons f rest ih =>
    rw [List.filterMap_cons, List.countP_cons]
    cases h : extract_timestamp f with
    | none => simp [h, ih]
    | some t => simp [h, ih]

theorem countP_le_one_of_unique {α : Type} (l : List α) (pred : α → Bool) (a : α)
    (hnd : l.Nodup) (h : ∀ f ∈ l, pred f = true → f = a) : l.countP pred ≤ 1 := by
  induction l with
  | nil => simp
  | cons x rest ih =>
    rw [List.countP_cons]
    rcases List.nodup_cons.mp hnd with ⟨hx, hrest⟩
    by_cases hp : pred x = true
    · have hxa : x = a := h x (by simp) hp
      have hz : rest.countP pred = 0 := by
        rw [List.countP_eq_zero]
        intro b hb hpb
        have hba : b = a := h b (List.mem_cons_of_mem _ hb) hpb
        exact hx (by rw [hxa, ← hba]; exact hb)
      simp [hp, hz]
    · have : (if pred x then 1 else 0) = 0 := by simp [hp]
      rw [this, Nat.add_zero]
      exact Nat.le_trans (ih hrest (fun f hf hpf => h f (List.mem_cons_of_mem _ hf) hpf))
        (Nat.le_refl 1)

/-- C2: after the retention pass, at most one merge file with a parseable
embedded timestamp remains and it carries the maximal parsed timestamp
among all candidates; files whose timestamp fails to parse are never
deleted; with at most one valid file nothing is deleted; and when at least
one valid file exists, a valid file survives. -/
theorem c2_retention_latest_survives (files : List String) (hnd : files.Nodup) :
    ((retentionSurvivors files).countP (fun f => (extract_timestamp f).isSome) ≤ 1) ∧
    (∀ f ∈ files, extract_timestamp f = none → f ∈ retentionSurvivors files) ∧
    (∀ f ∈ retentionSurvivors files, ∀ tf, extract_timestamp f = some tf →
      ∀ g ∈ files, ∀ tg, extract_timestamp g = some tg → tg ≤ tf) ∧
    ((tsPairs files).length ≤ 1 → retentionSurvivors files = files) ∧
    (tsPairs files ≠ [] →
      ∃ f ∈ retentionSurvivors files, (extract_timestamp f).isSome = true) := by
  by_cases hlen : (tsPairs files).length ≤ 1
  · have hD : filesToDelete files = [] := by
      rw [filesToDelete, if_neg (by omega)]
    have hsurv : retentionSurvivors files = files := by
      rw [retentionSurvivors]
      refine List.filter_eq_self.mpr ?_
      intro a _
      simp [hD]
    refine ⟨?_, ?_, ?_, fun _ => hsurv, ?_⟩
    · rw [hsurv, ← tsPairs_length_eq_countP]
      exact hlen
    · intro f hf _
      rw [hsurv]
      exact hf
    · intro f hf tf htf g hg tg htg
      rw [hsurv] at hf
      have hfp : (f, tf) ∈ tsPairs files := (mem_tsPairs files f tf).mpr ⟨hf, htf⟩
      have hgp : (g, tg) ∈ tsPairs files := (mem_tsPairs files g tg).mpr ⟨hg, htg⟩
      rcases hts : tsPairs files with _ | ⟨p, rest⟩
      · rw [hts] at hfp
        simp at hfp
      · rw [hts] at hfp hgp hlen
        have hr0 : rest = [] := by
          simp only [List.length_cons] at hlen
          exact List.eq_nil_of_length_eq_zero (by omega)
        subst hr0
        rcases List.mem_singleton.mp hfp with rfl
        rcases List.mem_singleton.mp hgp
        exact Nat.le_refl _
    · intro hne
      rcases hts : tsPairs files with _ | ⟨p, rest⟩
      · exact absurd hts hne
      · have hp := mem_tsPairs_pair files p (by rw [hts]; exact List.mem_cons_self _ _)
        exact ⟨p.1, by rw [hsurv]; exact hp.1, by rw [hp.2]; rfl⟩
  · have hgt : (tsPairs files).length > 1 := by omega
    have hperm : (sortDesc (tsPairs files)).Perm (tsPairs files) :=
      List.perm_insertionSort _ _
    rcases hs : sortDesc (tsPairs files) with _ | ⟨p, tl⟩
    · rw [hs] at hperm
      have := hperm.length_eq
      simp at this
      omega
    · have hD : filesToDelete files = tl.map Prod.fst := by
        rw [filesToDelete, if_pos hgt, hs]
        rfl
      have hsort : List.Sorted (fun a b : String × Nat => b.2 ≤ a.2)
          (sortDesc (tsPairs files)) := List.sorted_insertionSort _ _
      rw [hs] at hsort
      have hp_all : ∀ q ∈ tl, q.2 ≤ p.2 := (List.pairwise_cons.mp hsort).1
      have hmem_iff : ∀ q : String × Nat, q ∈ p :: tl ↔ q ∈ tsPairs files := by
        intro q
        rw [← hs]
        exact hperm.mem_iff
      have hfst1 : ((tsPairs files).map Prod.fst).Nodup :=
        (tsPairs_fst_sublist files).nodup hnd
      have hfst2 : ((p :: tl).map Prod.fst).Nodup := by
        rw [← hs]
        exact ((hperm.map Prod.fst).nodup_iff).mpr hfst1
      rw [List.map_cons] at hfst2
      rcases List.nodup_cons.mp hfst2 with ⟨hp_notin, _⟩
      have hpB : p.1 ∉ filesToDelete files := by
        rw [hD]
        exact hp_notin
      have hpmem : p ∈ tsPairs files := (hmem_iff p).mp (List.mem_cons_self _ _)
      rcases mem_tsPairs_pair files p hpmem with ⟨hpfiles, hpts⟩
      have factA : ∀ f tf, (f, tf) ∈ tsPairs files → f ∉ filesToDelete files →
          (f, tf) = p := by
        intro f tf hmem hnotD
        rcases List.mem_cons.mp ((hmem_iff (f, tf)).mpr hmem) with h | h
        · exact h
        · exact absurd (by rw [hD]; exact List.mem_map.mpr ⟨(f, tf), h, rfl⟩) hnotD
      have hsurv_mem : ∀ f, f ∈ retentionSurvivors files ↔
          f ∈ files ∧ f ∉ filesToDelete files := by
        intro f
        rw [retentionSurvivors, List.mem_filter]
        simp
      refine ⟨?_, ?_, ?_, ?_, ?_⟩
      · refine countP_le_one_of_unique _ _ p.1
          ((List.filter_sublist _).nodup hnd) ?_
        intro f hf hpred
        rcases (hsurv_mem f).mp hf with ⟨hffiles, hfD⟩
        rcases Option.isSome_iff_exists.mp hpred with ⟨tf, htf⟩
        have := factA f tf ((mem_tsPairs files f tf).mpr ⟨hffiles, htf⟩) hfD
        exact congrArg Prod.fst this
      · intro f hf hnone
        refine (hsurv_mem f).mpr ⟨hf, ?_⟩
        rw [hD]
        intro hmemD
        rcases List.mem_map.mp hmemD with ⟨q, hq, hqf⟩
        have hqts := mem_tsPairs_pair files q ((hmem_iff q).mp (List.mem_cons_of_mem _ hq))
        rw [hqf, hnone] at hqts
        exact absurd hqts.2 (by simp)
      · intro f hf tf htf g hg tg htg
        rcases (hsurv_mem f).mp hf with ⟨hffiles, hfD⟩
        have hfp := factA f tf ((mem_tsPairs files f tf).mpr ⟨hffiles, htf⟩) hfD
        have htf_eq : tf = p.2 := congrArg Prod.snd hfp
        rcases List.mem_cons.mp
            ((hmem_iff (g, tg)).mpr ((mem_tsPairs files g tg).mpr ⟨hg, htg⟩)) with h | h
        · rw [htf_eq]
          exact Nat.le_of_eq (congrArg Prod.snd h)
        · rw [htf_eq]
          exact hp_all (g, tg) h
      · intro hle
        omega
      · intro _
        refine ⟨p.1, (hsurv_mem p.1).mpr ⟨hpfiles, hpB⟩, ?_⟩
        rw [hpts]
        rfl

/-- Concrete merge-file set for the C2 witness: two valid timestamped merge
files and one file whose name does not parse. -/
def mergeFilesEx : List String :=
  ["P01_merged_bycycle_features_20240102_030405.csv",
    "P01_merged_bycycle_features_20240101_030405.csv", "junk.csv"]

/-- Witness for C2 at the concrete merge-file set. -/
theorem c2_retention_latest_survives_witness :
    mergeFilesEx.Nodup ∧
    (((retentionSurvivors mergeFilesEx).countP
        (fun f => (extract_timestamp f).isSome) ≤ 1) ∧
      (∀ f ∈ mergeFilesEx, extract_timestamp f = none →
        f ∈ retentionSurvivors mergeFilesEx) ∧
      (∀ f ∈ retentionSurvivors mergeFilesEx, ∀ tf, extract_timestamp f = some tf →
        ∀ g ∈ mergeFilesEx, ∀ tg, extract_timestamp g = some tg → tg ≤ tf) ∧
      ((tsPairs mergeFilesEx).length ≤ 1 →
        retentionSurvivors mergeFilesEx = mergeFilesEx) ∧
      (tsPairs mergeFilesEx ≠ [] →
        ∃ f ∈ retentionSurvivors mergeFilesEx, (extract_timestamp f).isSome = true)) :=
  ⟨by decide, c2_retention_latest_survives mergeFilesEx (by decide)⟩

/-- Events of one session iteration of `main`: a region iteration starting
(line 414), the region body completing with its CSV written (through line
644 without a `continue`), and the merge-plus-retention block executing
(lines 649-731). -/
inductive Ev where
  | regionStart : Nat → Ev
  | regionDone : Nat → Ev
  | mergeAndRetention : Nat → Ev
deriving DecidableEq

/-- Embedding of one iteration of the region loop of lines 414-731: the
merge-plus-retention block (lines 649-731) is lexically inside the
`for region_name` loop, so it runs within the same iteration whenever the
region body completes without a `continue`; the oracle `completes` states
whether region `i` ran to the end of its body. -/
def regionIterEvents (completes : Nat → Bool) (i : Nat) : List Ev :=
  if completes i then [.regionStart i, .regionDone i, .mergeAndRetention i]
  else [.regionStart i]

/-- Embedding of the region loop of one session: the events of every region
iteration, in order. -/
def sessionEvents (completes : Nat → Bool) (numRegions : Nat) : List Ev :=
  (List.range numRegions).flatMap (regionIterEvents completes)

/-- Recognizer for merge-plus-retention events. -/
def Ev.isMerge : Ev → Bool
  | .mergeAndRetention _ => true
  | _ => false

/-- C4 failing-input evaluation: for a session with two regions that both
complete, the merge-and-retention block runs twice — once inside each
region iteration — and the first merge precedes the second region, so it
does not run exactly once after all regions of the session. -/
theorem c4_failing_input_merge_runs_per_region :
    sessionEvents (fun _ => true) 2
      = [.regionStart 0, .regionDone 0, .mergeAndRetention 0,
        .regionStart 1, .regionDone 1, .mergeAndRetention 1] ∧
    (sessionEvents (fun _ => true) 2).countP Ev.isMerge = 2 := by
  exact ⟨rfl, rfl⟩

end RunBycycle
